import Mathlib

/-!
Verification development for the blog link checker
(`src/terraform/lambda/link_checker_lambda.py`).

The Python program is shallowly embedded: pure string manipulations are
translated directly; the network, the HTML parse done by BeautifulSoup and
`urllib.parse.urljoin` / `urlparse().netloc` are modelled as oracle functions
supplied in an environment record, so that every handler-level computation on
their results is the literal translation of the source.
-/

namespace LinkChecker

/-- `pre` begins `l` (character lists). -/
def isPrefixList : List Char → List Char → Bool
  | [], _ => true
  | _ :: _, [] => false
  | a :: pre, b :: l => a == b && isPrefixList pre l

/-- `needle` occurs as a contiguous sublist of `hay`. -/
def containsList (needle : List Char) : List Char → Bool
  | [] => isPrefixList needle []
  | c :: t => isPrefixList needle (c :: t) || containsList needle t

/-- Python's `needle in hay` substring test (`"" in s` is `True`). -/
def pyIn (needle hay : String) : Bool :=
  containsList needle.data hay.data

/-- Characters before the first `#`. -/
def charsBeforeHash : List Char → List Char
  | [] => []
  | c :: t => if c == '#' then [] else c :: charsBeforeHash t

/-- Characters after the first `#`, `none` when there is no `#`. -/
def charsAfterHash : List Char → Option (List Char)
  | [] => none
  | c :: t => if c == '#' then some t else charsAfterHash t

/-- Python's `url.split('#')[0]`: the part of the string before the first
`#` (the whole string when there is none). -/
def stripFrag (s : String) : String :=
  ⟨charsBeforeHash s.data⟩

/-- `urllib.parse.urlparse(url).fragment`: everything after the first `#`,
`""` when there is no `#`. -/
def fragOf (s : String) : String :=
  match charsAfterHash s.data with
  | none => ""
  | some t => ⟨t⟩

/-- `str.lower()` (modelled on the ASCII range, which is all the code's
`javascript:` test needs). -/
def lowerStr (s : String) : String :=
  ⟨s.data.map Char.toLower⟩

/-- `href.lower().startswith('javascript:')` (line 98). -/
def startsWithJavascriptLower (href : String) : Bool :=
  isPrefixList "javascript:".data (lowerStr href).data

/-- `MAX_META_REFRESH_REDIRECTS` (line 30 of the source). -/
def MAX_META_REFRESH_REDIRECTS : Nat := 5

/-- `SUCCESS_STATUS_LOWER_BOUND` (line 36). -/
def SUCCESS_STATUS_LOWER_BOUND : Nat := 200

/-- `SUCCESS_STATUS_UPPER_BOUND` (line 38). -/
def SUCCESS_STATUS_UPPER_BOUND : Nat := 400

/-! ## Link verifier: `check_link_status` (lines 134-162) -/

/-- Result of one `session.get` in `check_link_status`, as the Python code
observes it.
* `ok status finalUrl refresh body`: the request succeeded and
  `raise_for_status()` did not raise.  `finalUrl` is `response.url` (after the
  HTTP client's own transport redirects), `refresh` is the meta-refresh target
  extracted by the `soup.find('meta', http-equiv=refresh)` + `url=(.+)` regex
  (already `.strip().strip("'\"")`-ed, `none` when no such directive parses),
  and `body` is `response.text`.
* `httpError response msg`: `requests.exceptions.HTTPError` was raised;
  `response` carries `(e.response.status_code, e.response.url)` when
  `e.response` is present.
* `transportError msg`: any other `requests.exceptions.RequestException`. -/
inductive FetchOutcome where
  | ok (status : Nat) (finalUrl : String) (refresh : Option String) (body : String)
  | httpError (response : Option (Nat × String)) (msg : String)
  | transportError (msg : String)

/-- The network and URL-resolution oracle for the verifier. -/
structure NetEnv where
  fetch : String → FetchOutcome
  urljoin : String → String → String

/-- The dictionary returned by `check_link_status`. -/
structure CheckResult where
  statusCode : Option Nat
  finalUrl : String
  errorMessage : Option String
deriving DecidableEq, Repr

/-- One iteration of the `for _ in range(MAX_META_REFRESH_REDIRECTS)` loop of
`check_link_status`: either a terminal `CheckResult` (`Sum.inl`) or the next
URL to fetch after a meta refresh (`Sum.inr`). -/
def checkStep (env : NetEnv) (ngWords : List String) (cur : String) :
    Sum CheckResult String :=
  match env.fetch cur with
  | .ok status finalUrl refresh body =>
    match refresh with
    | some nxt => Sum.inr (env.urljoin finalUrl nxt)
    | none =>
      match ngWords.find? (fun w => pyIn w body) with
      | some w =>
        Sum.inl ⟨some status, finalUrl,
          some ("ページ内にNGワードが含まれています: \x27" ++ w ++ "\x27")⟩
      | none => Sum.inl ⟨some status, finalUrl, none⟩
  | .httpError (some (st, u)) msg => Sum.inl ⟨some st, u, some msg⟩
  | .httpError none msg => Sum.inl ⟨none, cur, some msg⟩
  | .transportError msg => Sum.inl ⟨none, cur, some msg⟩

/-- The loop of `check_link_status`, with the remaining iteration count
explicit; fuel `0` is falling off the `for` loop (line 162). -/
def checkLinkStatusAux (env : NetEnv) (ngWords : List String) :
    Nat → String → CheckResult
  | 0, cur => ⟨none, cur, some "Meta refresh redirect limit exceeded"⟩
  | Nat.succ n, cur =>
    match checkStep env ngWords cur with
    | .inl r => r
    | .inr nxt => checkLinkStatusAux env ngWords n nxt

/-- `check_link_status(url, ng_words)`. -/
def check_link_status (env : NetEnv) (ngWords : List String) (url : String) :
    CheckResult :=
  checkLinkStatusAux env ngWords MAX_META_REFRESH_REDIRECTS url

/-- `Hops env ngWords k u v`: starting a fetch chain at `u`, following exactly
`k` meta-refresh hops (each one a `Sum.inr` step of `checkStep`) reaches the
URL `v`. -/
inductive Hops (env : NetEnv) (ngWords : List String) :
    Nat → String → String → Prop where
  | refl (u : String) : Hops env ngWords 0 u u
  | step {n : Nat} {u v w : String} :
      checkStep env ngWords u = Sum.inr v → Hops env ngWords n v w →
      Hops env ngWords (n + 1) u w

theorem checkLinkStatusAux_spec (env : NetEnv) (ngWords : List String) :
    ∀ (n : Nat) (cur : String),
      (∃ k u, k < n ∧ Hops env ngWords k cur u ∧
        checkStep env ngWords u = Sum.inl (checkLinkStatusAux env ngWords n cur)) ∨
      ((checkLinkStatusAux env ngWords n cur).statusCode = none ∧
        (checkLinkStatusAux env ngWords n cur).errorMessage =
          some "Meta refresh redirect limit exceeded") := by
  intro n
  induction n with
  | zero => intro cur; exact Or.inr ⟨rfl, rfl⟩
  | succ n ih =>
    intro cur
    cases h : checkStep env ngWords cur with
    | inl r =>
      refine Or.inl ⟨0, cur, Nat.succ_pos n, Hops.refl cur, ?_⟩
      simp [checkLinkStatusAux, h]
    | inr nxt =>
      have hrec : checkLinkStatusAux env ngWords (n + 1) cur =
          checkLinkStatusAux env ngWords n nxt := by
        simp [checkLinkStatusAux, h]
      rcases ih nxt with ⟨k, u, hk, hops, hstep⟩ | ⟨h1, h2⟩
      · exact Or.inl ⟨k + 1, u, Nat.succ_lt_succ hk, Hops.step h hops,
          by rw [hrec]; exact hstep⟩
      · exact Or.inr ⟨by rw [hrec]; exact h1, by rw [hrec]; exact h2⟩

/-! ## Ad-link extractor: `extract_ad_links` (lines 86-103) -/

/-- An HTML element as `extract_ad_links` observes it while walking
`notice_text.find_all_next()`: its tag name and its `href` attribute
(`none` when `has_attr('href')` is false). -/
structure Elem where
  name : String
  href : Option String
deriving DecidableEq, Repr

/-- A fetched page as the Python code observes it through BeautifulSoup.
`notices` holds, for each text node matching the fixed disclosure marker
`※一部、広告・宣伝が含まれます。` inside `soup.body`, the document-order list
`find_all_next()` of elements following it.  `hatenaNextHref` is the `href` of
the `a rel=next` anchor found by `find_hatena_next_page_link`,
`ldArticleLinks` the per-page result of `extract_livedoor_article_links`, and
`ldNextHref` the `href` found by `find_livedoor_next_page_link` (each `none` /
`[]` when the corresponding tag is absent). -/
structure PageDoc where
  hasBody : Bool
  notices : List (List Elem)
  hatenaNextHref : Option String
  ldArticleLinks : List String
  ldNextHref : Option String

/-- The body of the `for next_element in notice_text.find_all_next():` loop.
The `break` at line 102 sits inside
`if href and not href.lower().startswith('javascript:')`, so an anchor whose
`href` is empty or `javascript:`-led does NOT end the walk — the loop
continues to later elements.  The walk therefore stops at the first anchor
carrying a non-empty, non-`javascript:` `href` (`e.href.getD ""` is the
attribute access `next_element['href']`, present by the `has_attr` test);
that anchor contributes `urljoin(base_url, href)` when the fragment-stripped
resolved URL differs from the fragment-stripped base URL, and nothing
otherwise (the `break` still fires). -/
def noticeCandidate (uj : String → String → String) (baseUrl : String)
    (elems : List Elem) : Option String :=
  match elems.find? (fun e => e.name == "a" && e.href.isSome &&
      e.href.getD "" != "" &&
      !startsWithJavascriptLower (e.href.getD "")) with
  | none => none
  | some e =>
    if stripFrag (uj baseUrl (e.href.getD "")) != stripFrag baseUrl then
      some (uj baseUrl (e.href.getD ""))
    else none

/-- The `links = set()` accumulation over all marker occurrences, modelled as
a duplicate-free list in first-insertion order. -/
def collectLinks (uj : String → String → String) (baseUrl : String)
    (notices : List (List Elem)) : List String :=
  notices.foldl
    (fun acc elems =>
      match noticeCandidate uj baseUrl elems with
      | some l => if l ∈ acc then acc else acc ++ [l]
      | none => acc)
    []

/-- `extract_ad_links(html_content, base_url)`.  `none` input models a falsy
`html_content`; the function returns `None` (here `none`) when the page has no
body or no disclosure-marker text node, and otherwise the collected links with
every fragment-bearing URL removed (`if not urlparse(link).fragment`). -/
def extract_ad_links (uj : String → String → String) (html : Option PageDoc)
    (baseUrl : String) : Option (List String) :=
  match html with
  | none => none
  | some doc =>
    if !doc.hasBody then none
    else if doc.notices.isEmpty then none
    else some ((collectLinks uj baseUrl doc.notices).filter
      (fun l => fragOf l == ""))

theorem collectLinks_nodup_aux (uj : String → String → String) (b : String) :
    ∀ (ns : List (List Elem)) (acc : List String), acc.Nodup →
      (ns.foldl
        (fun acc elems =>
          match noticeCandidate uj b elems with
          | some l => if l ∈ acc then acc else acc ++ [l]
          | none => acc)
        acc).Nodup := by
  intro ns
  induction ns with
  | nil => intro acc h; exact h
  | cons e ns ih =>
    intro acc h
    simp only [List.foldl_cons]
    cases hc : noticeCandidate uj b e with
    | none => exact ih acc h
    | some l =>
      by_cases hmem : l ∈ acc
      · simp only [hmem, if_pos]; exact ih acc h
      · simp only [hmem, if_neg, not_false_iff]
        exact ih (acc ++ [l]) (by simp [List.nodup_append, h, hmem])

theorem collectLinks_mem_aux (uj : String → String → String) (b : String) :
    ∀ (ns : List (List Elem)) (acc : List String) (l : String),
      l ∈ ns.foldl
        (fun acc elems =>
          match noticeCandidate uj b elems with
          | some l => if l ∈ acc then acc else acc ++ [l]
          | none => acc)
        acc →
      l ∈ acc ∨ ∃ elems ∈ ns, noticeCandidate uj b elems = some l := by
  intro ns
  induction ns with
  | nil => intro acc l h; exact Or.inl h
  | cons e ns ih =>
    intro acc l h
    simp only [List.foldl_cons] at h
    cases hc : noticeCandidate uj b e with
    | none =>
      rw [hc] at h
      rcases ih acc l h with h' | ⟨es, hes, hcand⟩
      · exact Or.inl h'
      · exact Or.inr ⟨es, List.mem_cons_of_mem _ hes, hcand⟩
    | some l' =>
      rw [hc] at h
      by_cases hmem : l' ∈ acc
      · simp only [hmem, ite_true] at h
        rcases ih acc l h with h' | ⟨es, hes, hcand⟩
        · exact Or.inl h'
        · exact Or.inr ⟨es, List.mem_cons_of_mem _ hes, hcand⟩
      · simp only [hmem, ite_false] at h
        rcases ih (acc ++ [l']) l h with h' | ⟨es, hes, hcand⟩
        · rcases List.mem_append.mp h' with h'' | h''
          · exact Or.inl h''
          · have : l = l' := by simpa using h''
            exact Or.inr ⟨e, List.mem_cons_self _ _, this ▸ hc⟩
        · exact Or.inr ⟨es, List.mem_cons_of_mem _ hes, hcand⟩

/-! ## Classification (lines 226-235, 275-283, 305-315) and the handler -/

/-- Python truthiness of `check_result["status_code"]` combined with
`SUCCESS_STATUS_LOWER_BOUND <= code < SUCCESS_STATUS_UPPER_BOUND`
(`is_successful_status`, line 228). -/
def is_successful_status (sc : Option Nat) : Bool :=
  match sc with
  | none => false
  | some c =>
    (c != 0) && (decide (SUCCESS_STATUS_LOWER_BOUND ≤ c) &&
      decide (c < SUCCESS_STATUS_UPPER_BOUND))

/-- Python truthiness of `check_result["error_message"]` (absent or empty is
falsy). -/
def truthyMsg (m : Option String) : Bool :=
  match m with
  | none => false
  | some s => s != ""

/-- The f-string rendering of `check_result['status_code']`: `None` prints as
`"None"`, a number as its decimal digits. -/
def statusCodeMessage (sc : Option Nat) : String :=
  "ステータスコード: " ++ (match sc with | none => "None" | some c => toString c)

/-- Fixed reason of overlay rule 1 (line 232). -/
def domainBlockReason : String :=
  "リンク先のドメインが \x27jass-net.com\x27 です"

/-- Fixed reason of overlay rule 2 (line 233). -/
def hatenaEscapeReason : String :=
  "リンク先のURLに \x27hatena\x27 が含まれています"

/-- Lines 227-233: classify one `CheckResult` against the origin URL,
returning `(status, error_reason)`.  `nl` models `urlparse(u).netloc`. -/
def classify_result (nl : String → String) (originUrl : String)
    (cr : CheckResult) : String × Option String :=
  if !is_successful_status cr.statusCode || truthyMsg cr.errorMessage then
    ("ERROR", some (if truthyMsg cr.errorMessage then cr.errorMessage.getD ""
      else statusCodeMessage cr.statusCode))
  else if nl cr.finalUrl == "jass-net.com" then
    ("ERROR", some domainBlockReason)
  else if pyIn "hatena" cr.finalUrl && !(nl cr.finalUrl == nl originUrl) then
    ("ERROR", some hatenaEscapeReason)
  else ("OK", none)

/-- One row of `all_detailed_results` (the `timestamp` field, an external clock
reading, is omitted). -/
structure ResultRecord where
  spreadsheet_link : String
  blog_article_url : String
  affiliate_link : String
  status : String
  status_code : Option Nat
  final_url : String
  error_message : Option String
deriving DecidableEq, Repr

/-- The environment of one handler run: the page-fetch oracle
(`get_html_content`, `none` for a fetch error or falsy body), URL resolution,
`urlparse().netloc`, the outcome of `future.result()` for
`check_link_status(link, ng_words)` (`Except.error` models a raised
exception), and the parsed `EXCLUDE_STRINGS` list. -/
structure Env where
  fetchHtml : String → Option PageDoc
  urljoin : String → String → String
  netloc : String → String
  check : String → Except String CheckResult
  exclude : List String

/-- Lines 223-238 / 271-286, one completed future: the record appended for
one submitted link (exceptions are converted at the scheduler boundary,
lines 236-238). -/
def record_for_link (env : Env) (blogUrl pageUrl link : String) :
    ResultRecord :=
  match env.check link with
  | .error exc => ⟨blogUrl, pageUrl, link, "ERROR", none, link, some exc⟩
  | .ok cr =>
    ⟨blogUrl, pageUrl, link, (classify_result env.netloc blogUrl cr).1,
      cr.statusCode, cr.finalUrl, (classify_result env.netloc blogUrl cr).2⟩

/-- The fixed reason of the synthetic page-level record (lines 217, 265). -/
def syntheticReason : String := "対象の広告リンクが見つかりませんでした"

/-- The record appended when the filtered candidate list is empty
(lines 218, 266): the page itself stands in for the affiliate link. -/
def syntheticRecord (blogUrl pageUrl : String) : ResultRecord :=
  ⟨blogUrl, pageUrl, pageUrl, "ERROR", none, pageUrl, some syntheticReason⟩

/-- Line 214 / 262: drop every extracted link containing an exclude
substring. -/
def filterExcluded (ex : List String) (links : List String) : List String :=
  links.filter (fun link => !(ex.any (fun s => pyIn s link)))

/-- Lines 210-238 (identically 258-286): process one fetched page or article:
extract, filter, synthesize the page-level NG record when nothing survives,
and collect one record per verified link. -/
def processPageStep (env : Env) (blogUrl pageUrl : String) (doc : PageDoc) :
    List ResultRecord :=
  match extract_ad_links env.urljoin (some doc) pageUrl with
  | none => []
  | some extracted =>
    let filtered := filterExcluded env.exclude extracted
    (if filtered.isEmpty then [syntheticRecord blogUrl pageUrl] else []) ++
      filtered.map (record_for_link env blogUrl pageUrl)

/-- The Hatena pagination walk (lines 204-241), with the remaining number of
loop iterations as fuel (the walk itself is unbounded). -/
def hatenaCrawl (env : Env) (blogUrl : String) :
    Nat → String → List ResultRecord
  | 0, _ => []
  | Nat.succ fuel, pageUrl =>
    match env.fetchHtml pageUrl with
    | none => []
    | some doc =>
      processPageStep env blogUrl pageUrl doc ++
        (match doc.hatenaNextHref with
         | none => []
         | some href => hatenaCrawl env blogUrl fuel (env.urljoin pageUrl href))

/-- Lines 244-251: gather the Livedoor article URLs across list pages into
`all_article_urls` (a set, modelled as a duplicate-free list in
first-insertion order), with fuel for the unbounded walk. -/
def livedoorCollect (env : Env) :
    Nat → String → List String → List String
  | 0, _, acc => acc
  | Nat.succ fuel, pageUrl, acc =>
    match env.fetchHtml pageUrl with
    | none => acc
    | some doc =>
      let acc2 := doc.ldArticleLinks.foldl
        (fun a l => if l ∈ a then a else a ++ [l]) acc
      match doc.ldNextHref with
      | none => acc2
      | some href => livedoorCollect env fuel (env.urljoin pageUrl href) acc2

/-- Lines 243-286: the Livedoor flow for one target. -/
def livedoorCrawl (env : Env) (fuel : Nat) (blogUrl : String) :
    List ResultRecord :=
  ((livedoorCollect env fuel blogUrl []).map (fun articleUrl =>
    match env.fetchHtml articleUrl with
    | none => []
    | some doc => processPageStep env blogUrl articleUrl doc)).flatten

/-- Line 201: `"hatenablog.com" in blog_url or "hatenablog.jp" in blog_url`. -/
def isHatena (url : String) : Bool :=
  pyIn "hatenablog.com" url || pyIn "hatenablog.jp" url

/-- Line 202: `"livedoor.blog" in blog_url or "blog.jp" in blog_url`. -/
def isLivedoor (url : String) : Bool :=
  pyIn "livedoor.blog" url || pyIn "blog.jp" url

/-- The strategy set of the platform adapter. -/
inductive Platform where
  | hatena
  | livedoor
  | generic
deriving DecidableEq, Repr

/-- The selection function of the platform adapter (lines 201-202, 204, 243,
287): Generic targets are merely logged and skipped. -/
def classifyPlatform (url : String) : Platform :=
  if isHatena url then .hatena
  else if isLivedoor url then .livedoor
  else .generic

/-- Lines 197-288: process one `auto_url_list` entry (an empty URL models a
missing/falsy `url` key, line 199). -/
def processTarget (env : Env) (fuel : Nat) (blogUrl : String) :
    List ResultRecord :=
  if blogUrl = "" then []
  else if isHatena blogUrl then hatenaCrawl env blogUrl fuel blogUrl
  else if isLivedoor blogUrl then livedoorCrawl env fuel blogUrl
  else []

/-- The whole `auto_url_list` loop. -/
def processAutoList (env : Env) (fuel : Nat) (urls : List String) :
    List ResultRecord :=
  (urls.map (processTarget env fuel)).flatten

/-- One `manual_url_list` entry (missing keys model as `""`). -/
structure ManualItem where
  spreadsheet_link : String
  blog_article_url : String
  affiliate_link : String
deriving DecidableEq, Repr

/-- Lines 302-318, one completed future of the manual flow. -/
def manual_record (env : Env) (it : ManualItem) : ResultRecord :=
  match env.check it.affiliate_link with
  | .error exc =>
    ⟨it.spreadsheet_link, it.blog_article_url, it.affiliate_link, "ERROR",
      none, it.affiliate_link, some exc⟩
  | .ok cr =>
    ⟨it.spreadsheet_link, it.blog_article_url, it.affiliate_link,
      (classify_result env.netloc it.spreadsheet_link cr).1,
      cr.statusCode, cr.finalUrl,
      (classify_result env.netloc it.spreadsheet_link cr).2⟩

/-- Lines 294-318: filter the manual list (line 294-297) and check each
surviving item. -/
def processManual (env : Env) (items : List ManualItem) : List ResultRecord :=
  (items.filter (fun it =>
    it.affiliate_link != "" &&
      !(env.exclude.any (fun s => pyIn s it.affiliate_link)))).map
    (manual_record env)

/-- The record accumulation of one whole run of `lambda_handler`
(`all_detailed_results` just before the output phase, line 321). -/
def runHandler (env : Env) (fuel : Nat) (auto : List String)
    (manual : List ManualItem) : List ResultRecord :=
  processAutoList env fuel auto ++ processManual env manual

/-! ## Report builder: the sort at line 330 -/

/-- The sort key of line 330 as a plain triple:
`(x.get('spreadsheet_link',''), x.get('blog_article_url',''),
x.get('affiliate_link',''))`. -/
def recKey (r : ResultRecord) : String × String × String :=
  (r.spreadsheet_link, r.blog_article_url, r.affiliate_link)

/-- The same key in the lexicographic order Python uses to compare key
tuples. -/
def recKeyL (r : ResultRecord) : Lex (String × Lex (String × String)) :=
  toLex (r.spreadsheet_link, toLex (r.blog_article_url, r.affiliate_link))

/-- The comparison underlying `all_detailed_results.sort(key=...)`. -/
def recLe (a b : ResultRecord) : Prop := recKeyL a ≤ recKeyL b

instance : DecidableRel recLe :=
  fun a b => inferInstanceAs (Decidable (recKeyL a ≤ recKeyL b))

instance : IsTotal ResultRecord recLe :=
  ⟨fun a b => le_total (recKeyL a) (recKeyL b)⟩

instance : IsTrans ResultRecord recLe :=
  ⟨fun _ _ _ h1 h2 => le_trans h1 h2⟩

/-- `all_detailed_results.sort(key=lambda x: (...))` (line 330): Python's
sort is stable, as is insertion sort with this insertion rule. -/
def sortRecords (l : List ResultRecord) : List ResultRecord :=
  List.insertionSort recLe l

theorem recKeyL_inj {a b : ResultRecord} (h : recKeyL a = recKeyL b) :
    recKey a = recKey b := by
  unfold recKeyL at h
  have h1 := congrArg ofLex h
  simp only [ofLex_toLex] at h1
  rw [Prod.ext_iff] at h1
  have h4 := congrArg ofLex h1.2
  simp only [ofLex_toLex] at h4
  rw [Prod.ext_iff] at h4
  simp only [recKey, Prod.ext_iff]
  exact ⟨h1.1, h4.1, h4.2⟩

theorem sorted_perm_eq_of_nodup_keys :
    ∀ (l1 l2 : List ResultRecord), l1.Perm l2 → l1.Sorted recLe →
      l2.Sorted recLe → (l2.map recKey).Nodup → l1 = l2 := by
  intro l1
  induction l1 with
  | nil =>
    intro l2 p _ _ _
    exact (List.Perm.eq_nil p.symm).symm
  | cons a t1 ih =>
    intro l2 p s1 s2 nd
    cases l2 with
    | nil => exact absurd p.eq_nil (by simp)
    | cons b t2 =>
      have hab : a = b := by
        by_contra hne
        have ha2 : a ∈ t2 := by
          have hmem : a ∈ b :: t2 := p.subset (List.mem_cons_self a t1)
          rcases List.mem_cons.mp hmem with h | h
          · exact absurd h hne
          · exact h
        have hb1 : b ∈ t1 := by
          have hmem : b ∈ a :: t1 := p.symm.subset (List.mem_cons_self b t2)
          rcases List.mem_cons.mp hmem with h | h
          · exact absurd h.symm hne
          · exact h
        have hle1 : recLe a b := List.rel_of_sorted_cons s1 b hb1
        have hle2 : recLe b a := List.rel_of_sorted_cons s2 a ha2
        have hkey : recKey a = recKey b := recKeyL_inj (le_antisymm hle1 hle2)
        have hmap : recKey a ∈ t2.map recKey := List.mem_map_of_mem recKey ha2
        have hnd : recKey b ∉ t2.map recKey := by
          have := List.map_cons recKey b t2 ▸ nd
          exact (List.nodup_cons.mp this).1
        exact hnd (hkey ▸ hmap)
      subst hab
      have p' : t1.Perm t2 := p.cons_inv
      have ndt : (t2.map recKey).Nodup := by
        have := List.map_cons recKey a t2 ▸ nd
        exact (List.nodup_cons.mp this).2
      rw [ih t2 p' (List.sorted_cons.mp s1).2 (List.sorted_cons.mp s2).2 ndt]

/-! ## Differential state tracker (spec §4.6) -/

/-- The `FailureKey` identity of §3: (page-or-article-url, checked-link). -/
abbrev FailureKey := String × String

/-- Modelled from the spec: the projection of a record to its `FailureKey`.
The differential tracker of spec §4.6 / §6 (`previous_error_details`,
`new`/`fixed`) has no implementation under `src/`; only the record
accumulation it consumes is in the Lambda source. -/
def failureKey (r : ResultRecord) : FailureKey :=
  (r.blog_article_url, r.affiliate_link)

/-- Modelled from the spec: the current run's NG-key set B, the projection of
the run's NG (here `"ERROR"`-status) records to their failure keys. -/
def currentNgKeys (records : List ResultRecord) : Finset FailureKey :=
  ((records.filter (fun r => r.status != "OK")).map failureKey).toFinset

/-- Modelled from the spec: `new = B \ A` — current NG records whose
`FailureKey` is absent from the previous set. -/
def diffNew (prev cur : Finset FailureKey) : Finset FailureKey := cur \ prev

/-- Modelled from the spec: `fixed = A \ B` — previous NG records whose
`FailureKey` is absent from the current set. -/
def diffFixed (prev cur : Finset FailureKey) : Finset FailureKey := prev \ cur

/-! ## Facts about the classification engine -/

theorem is_successful_status_iff (sc : Option Nat) :
    is_successful_status sc = true ↔
      ∃ c, sc = some c ∧ SUCCESS_STATUS_LOWER_BOUND ≤ c ∧
        c < SUCCESS_STATUS_UPPER_BOUND := by
  cases sc with
  | none => simp [is_successful_status]
  | some c =>
    simp only [is_successful_status, Bool.and_eq_true, bne_iff_ne, ne_eq,
      decide_eq_true_eq, Option.some.injEq]
    constructor
    · rintro ⟨_, h1, h2⟩
      exact ⟨c, rfl, h1, h2⟩
    · rintro ⟨c', hc, h1, h2⟩
      subst hc
      refine ⟨?_, h1, h2⟩
      have : SUCCESS_STATUS_LOWER_BOUND = 200 := rfl
      omega

theorem classify_result_cases (nl : String → String) (o : String)
    (cr : CheckResult) :
    ((classify_result nl o cr).1 = "OK" ∧ (classify_result nl o cr).2 = none ∧
      is_successful_status cr.statusCode = true)
    ∨ ((classify_result nl o cr).1 = "ERROR" ∧
        ∃ m, (classify_result nl o cr).2 = some m) := by
  unfold classify_result
  split_ifs with h1 hmsg h2 h3
  · exact Or.inr ⟨rfl, ⟨_, rfl⟩⟩
  · exact Or.inr ⟨rfl, ⟨_, rfl⟩⟩
  · exact Or.inr ⟨rfl, ⟨_, rfl⟩⟩
  · exact Or.inr ⟨rfl, ⟨_, rfl⟩⟩
  · refine Or.inl ⟨rfl, rfl, ?_⟩
    by_cases hs : is_successful_status cr.statusCode = true
    · exact hs
    · exfalso
      apply h1
      simp [Bool.not_eq_true] at hs
      simp [hs]

/-- C1 (amended): OK iff status present and in [200,400), no (non-empty)
error message, the final host is not the blocked domain, and the final host
equals the origin host or the final URL does not contain `"hatena"`; every
other combination is `"ERROR"`; a base-rule NG carries the outcome's error
message or the synthesized status-code message, while an overlay NG carries
that overlay's fixed reason string. -/
theorem classification_law (nl : String → String) (originUrl : String)
    (cr : CheckResult) :
    ((classify_result nl originUrl cr).1 = "OK" ↔
      ((∃ c, cr.statusCode = some c ∧ SUCCESS_STATUS_LOWER_BOUND ≤ c ∧
          c < SUCCESS_STATUS_UPPER_BOUND)
        ∧ truthyMsg cr.errorMessage = false
        ∧ nl cr.finalUrl ≠ "jass-net.com"
        ∧ (nl cr.finalUrl = nl originUrl ∨ pyIn "hatena" cr.finalUrl = false)))
    ∧ ((classify_result nl originUrl cr).1 = "OK" ∨
        (classify_result nl originUrl cr).1 = "ERROR")
    ∧ ((classify_result nl originUrl cr).1 = "OK" →
        (classify_result nl originUrl cr).2 = none)
    ∧ (is_successful_status cr.statusCode = false ∨
        truthyMsg cr.errorMessage = true →
        (classify_result nl originUrl cr).2 =
          some (if truthyMsg cr.errorMessage then cr.errorMessage.getD ""
            else statusCodeMessage cr.statusCode))
    ∧ (is_successful_status cr.statusCode = true →
        truthyMsg cr.errorMessage = false →
        nl cr.finalUrl = "jass-net.com" →
        (classify_result nl originUrl cr).2 = some domainBlockReason)
    ∧ (is_successful_status cr.statusCode = true →
        truthyMsg cr.errorMessage = false →
        nl cr.finalUrl ≠ "jass-net.com" →
        pyIn "hatena" cr.finalUrl = true →
        nl cr.finalUrl ≠ nl originUrl →
        (classify_result nl originUrl cr).2 = some hatenaEscapeReason) := by
  refine ⟨?_, ?_, ?_, ?_, ?_, ?_⟩
  · constructor
    · intro hOK
      unfold classify_result at hOK
      split_ifs at hOK with h1 hmsg h2 h3
      · simp at hOK
      · simp at hOK
      · simp at hOK
      · simp at hOK
      · have hsucc : is_successful_status cr.statusCode = true ∧
            truthyMsg cr.errorMessage = false := by
          constructor
          · by_cases hs : is_successful_status cr.statusCode = true
            · exact hs
            · exfalso; apply h1
              simp [Bool.not_eq_true] at hs
              simp [hs]
          · by_cases ht : truthyMsg cr.errorMessage = true
            · exfalso; exact h1 (by simp [ht])
            · simpa [Bool.not_eq_true] using ht
        refine ⟨(is_successful_status_iff _).mp hsucc.1, hsucc.2, ?_, ?_⟩
        · intro he
          exact h2 (by simp [he])
        · by_cases hn : nl cr.finalUrl = nl originUrl
          · exact Or.inl hn
          · refine Or.inr ?_
            by_cases hh : pyIn "hatena" cr.finalUrl = true
            · exfalso
              apply h3
              simp only [Bool.and_eq_true, hh, true_and, Bool.not_eq_true',
                beq_eq_false_iff_ne, ne_eq]
              exact hn
            · simpa [Bool.not_eq_true] using hh
    · rintro ⟨hex, ht, hj, hor⟩
      have hs := (is_successful_status_iff cr.statusCode).mpr hex
      unfold classify_result
      rw [if_neg (by simp [hs, ht]), if_neg (by simp [hj]),
        if_neg ?_]
      rcases hor with hn | hh
      · simp [hn]
      · simp [hh]
  · rcases classify_result_cases nl originUrl cr with ⟨h, _, _⟩ | ⟨h, _⟩
    · exact Or.inl h
    · exact Or.inr h
  · intro hOK
    rcases classify_result_cases nl originUrl cr with ⟨_, h, _⟩ | ⟨h, _⟩
    · exact h
    · rw [h] at hOK; simp at hOK
  · intro hbase
    have hcond : (!is_successful_status cr.statusCode ||
        truthyMsg cr.errorMessage) = true := by
      rcases hbase with h | h <;> simp [h]
    unfold classify_result
    rw [if_pos hcond]
  · intro hs ht hj
    unfold classify_result
    rw [if_neg (by simp [hs, ht]), if_pos (by simp [hj])]
  · intro hs ht hj hh hn
    unfold classify_result
    rw [if_neg (by simp [hs, ht]), if_neg (by simp [hj]),
      if_pos (by simp [hh, hn])]

/-- C1 counterexample: an outcome with status 200, no error message and final
URL on the blocked domain is classified NG, but its reason is the fixed
domain-block string, not the outcome's error message (absent here) nor a
synthesized message naming the status code, refuting the claim's reason
clause for overlay-forced NG. -/
theorem classification_reason_counterexample :
    classify_result
      (fun u => if u = "http://jass-net.com/x" then "jass-net.com"
        else "blog.example")
      "http://blog.example/"
      ⟨some 200, "http://jass-net.com/x", none⟩ =
      ("ERROR", some domainBlockReason)
    ∧ domainBlockReason ≠ statusCodeMessage (some 200)
    ∧ (⟨some 200, "http://jass-net.com/x", none⟩ : CheckResult).errorMessage
        = none := by
  refine ⟨by decide, by decide, rfl⟩

/-- C1 witness: the amended law applied to a concrete 404 outcome yields the
synthesized status-code reason. -/
theorem classification_law_witness :
    (classify_result (fun _ => "example.com") "http://origin"
      ⟨some 404, "http://u", none⟩).2 = some (statusCodeMessage (some 404)) := by
  have h := (classification_law (fun _ => "example.com") "http://origin"
    ⟨some 404, "http://u", none⟩).2.2.2.1 (Or.inl (by decide))
  simpa [truthyMsg] using h

/-- C2: for every network behaviour and every checked URL, either the
verifier's outcome is produced by a terminal fetch at a URL reached from the
original URL by at most `MAX_META_REFRESH_REDIRECTS` meta-refresh hops (so
the reported final URL belongs to that bounded chain), or the outcome is
exactly the redirect-limit-exceeded outcome: status code absent and the fixed
error message. -/
theorem meta_refresh_bound (env : NetEnv) (ngWords : List String)
    (url : String) :
    (∃ k u, k ≤ MAX_META_REFRESH_REDIRECTS ∧ Hops env ngWords k url u ∧
      checkStep env ngWords u =
        Sum.inl (check_link_status env ngWords url)) ∨
    ((check_link_status env ngWords url).statusCode = none ∧
      (check_link_status env ngWords url).errorMessage =
        some "Meta refresh redirect limit exceeded") := by
  rcases checkLinkStatusAux_spec env ngWords MAX_META_REFRESH_REDIRECTS url
    with ⟨k, u, hk, hops, hstep⟩ | h
  · exact Or.inl ⟨k, u, Nat.le_of_lt hk, hops, hstep⟩
  · exact Or.inr h

theorem noticeCandidate_some (uj : String → String → String) (base : String)
    (elems : List Elem) (l : String)
    (h : noticeCandidate uj base elems = some l) :
    stripFrag l ≠ stripFrag base ∧
      ∃ e, elems.find? (fun e => e.name == "a" && e.href.isSome &&
          e.href.getD "" != "" &&
          !startsWithJavascriptLower (e.href.getD "")) = some e ∧
        ∃ href, e.href = some href ∧ href ≠ "" ∧
          startsWithJavascriptLower href = false ∧
          l = uj base href := by
  unfold noticeCandidate at h
  split at h
  · simp at h
  · rename_i e hf
    split_ifs at h with hstrip
    · have hl : l = uj base (e.href.getD "") := (Option.some.inj h).symm
      have hpred := List.find?_some hf
      simp only [Bool.and_eq_true] at hpred
      obtain ⟨href, hhref⟩ := Option.isSome_iff_exists.mp hpred.1.1.2
      have hget : e.href.getD "" = href := by rw [hhref]; rfl
      have hne : href ≠ "" := by
        have := hpred.1.2
        rw [hget] at this
        simpa using this
      have hjs : startsWithJavascriptLower href = false := by
        have := hpred.2
        rw [hget] at this
        simpa using this
      rw [hget] at hl hstrip
      simp only [bne_iff_ne, ne_eq] at hstrip
      subst hl
      exact ⟨hstrip, e, hf, href, hhref, hne, hjs, rfl⟩

/-- C4 (amended): every candidate URL returned by the ad-link extractor is
fragment-free, distinct from the (fragment-stripped) base page URL, and is
the base-resolved href of the first QUALIFYING anchor (the first anchor whose
href is present, non-empty and not `javascript:`-led — disqualified anchors
do not stop the walk) following some disclosure-marker occurrence; the
returned list is duplicate-free.  An anchor whose resolved URL carries a
fragment is discarded entirely (it does NOT contribute a fragment-stripped
URL). -/
theorem extractor_candidates (uj : String → String → String) (doc : PageDoc)
    (base : String) (out : List String)
    (h : extract_ad_links uj (some doc) base = some out) :
    out.Nodup ∧ ∀ l ∈ out, fragOf l = "" ∧ stripFrag l ≠ stripFrag base ∧
      ∃ elems ∈ doc.notices, ∃ e,
        elems.find? (fun e => e.name == "a" && e.href.isSome &&
          e.href.getD "" != "" &&
          !startsWithJavascriptLower (e.href.getD "")) = some e ∧
        ∃ href, e.href = some href ∧ href ≠ "" ∧
          startsWithJavascriptLower href = false ∧
          l = uj base href := by
  simp only [extract_ad_links] at h
  split_ifs at h with h1 h2
  have hout : out = (collectLinks uj base doc.notices).filter
      (fun l => fragOf l == "") := (Option.some.inj h).symm
  subst hout
  constructor
  · exact List.Nodup.filter _
      (collectLinks_nodup_aux uj base doc.notices [] List.nodup_nil)
  · intro l hl
    have hmem := List.mem_filter.mp hl
    have hfrag : fragOf l = "" := by
      have := hmem.2
      simpa using this
    rcases collectLinks_mem_aux uj base doc.notices [] l hmem.1 with
      hfalse | ⟨elems, hin, hcand⟩
    · simp at hfalse
    · rcases noticeCandidate_some uj base elems l hcand with
        ⟨hstrip, e, hf, href, he, hne, hjs, hresolved⟩
      exact ⟨hfrag, hstrip, elems, hin, e, hf, href, he, hne, hjs,
        hresolved⟩

/-- A concrete model of `urljoin` valid for absolute hrefs: resolving an
absolute URL against any base yields that URL, as `urllib.parse.urljoin`
does. -/
def ujAbs : String → String → String := fun _ href => href

/-- The page used by the extractor witnesses: one marker occurrence followed
by one anchor. -/
def docFragFree : PageDoc :=
  ⟨true, [[⟨"a", some "http://shop.example/q"⟩]], none, [], none⟩

/-- C4 counterexample: a marker followed by an anchor resolving to
`http://shop.example/p#frag` yields an EMPTY candidate set — the claim says
the fragment-stripped URL `http://shop.example/p` should still be
contributed, but the code filters fragment-bearing URLs out instead of
stripping them. -/
theorem extractor_fragment_counterexample :
    extract_ad_links ujAbs
      (some ⟨true, [[⟨"a", some "http://shop.example/p#frag"⟩]], none, [],
        none⟩)
      "http://blog.example/" = some [] := by
  decide

/-- A page whose marker is followed first by a `javascript:` anchor and only
then by a qualifying one: the walk skips the disqualified anchor (its
`break`-less branch) and the later anchor contributes. -/
def docSkipsDisqualified : PageDoc :=
  ⟨true, [[⟨"a", some "javascript:void(0)"⟩,
    ⟨"a", some "http://shop.example/q"⟩]], none, [], none⟩

/-- C4 witness: the amended theorem applied at a concrete page on which the
first anchor-with-href is a disqualified `javascript:` one and the second,
qualifying anchor supplies the (fragment-free) candidate. -/
theorem extractor_candidates_witness :
    ((["http://shop.example/q"] : List String).Nodup) ∧
      fragOf "http://shop.example/q" = "" := by
  have h := extractor_candidates ujAbs docSkipsDisqualified
    "http://blog.example/" ["http://shop.example/q"] (by decide)
  exact ⟨h.1, (h.2 "http://shop.example/q" (by simp)).1⟩

/-! ## Per-page crawl step, platform selection, scheduler -/

/-- Characters after the first `//`. -/
def charsAfterDoubleSlash : List Char → List Char
  | [] => []
  | '/' :: '/' :: t => t
  | _ :: t => charsAfterDoubleSlash t

/-- Characters before the first `/`. -/
def charsBeforeSlash : List Char → List Char
  | [] => []
  | c :: t => if c == '/' then [] else c :: charsBeforeSlash t

/-- A concrete model of `urlparse(u).netloc` valid for ordinary absolute
`http(s)` URLs: the text between the `//` and the next `/`. -/
def netlocSimple (u : String) : String :=
  ⟨charsBeforeSlash (charsAfterDoubleSlash u.data)⟩

/-- A concrete environment whose exclude list kills the one candidate of
`docFragFree`. -/
def envExcl : Env :=
  { fetchHtml := fun _ => none
    urljoin := ujAbs
    netloc := fun _ => ""
    check := fun u => Except.ok ⟨some 200, u, none⟩
    exclude := ["shop"] }

/-- A concrete environment with an empty exclude list whose checks all
succeed with status 200. -/
def envPlain : Env :=
  { fetchHtml := fun _ => none
    urljoin := ujAbs
    netloc := fun _ => "h"
    check := fun u => Except.ok ⟨some 200, u, none⟩
    exclude := [] }

/-- C5 (amended): per fetched page, three outcomes are distinguished —
marker absent (`extract_ad_links = none`): no record at all; marker present
but no candidate SURVIVING the exclude-substring filter: exactly the one
synthetic page-level NG record; marker present with at least one surviving
candidate: exactly one verification record per surviving candidate and no
synthetic record. -/
theorem extractor_crawler_trichotomy (env : Env) (blogUrl pageUrl : String)
    (doc : PageDoc) :
    (extract_ad_links env.urljoin (some doc) pageUrl = none →
      processPageStep env blogUrl pageUrl doc = [])
    ∧ (∀ l, extract_ad_links env.urljoin (some doc) pageUrl = some l →
        (filterExcluded env.exclude l = [] →
          processPageStep env blogUrl pageUrl doc =
            [syntheticRecord blogUrl pageUrl])
        ∧ (filterExcluded env.exclude l ≠ [] →
          processPageStep env blogUrl pageUrl doc =
            (filterExcluded env.exclude l).map
              (record_for_link env blogUrl pageUrl))) := by
  constructor
  · intro h
    simp [processPageStep, h]
  · intro l h
    constructor
    · intro hf
      simp [processPageStep, h, hf]
    · intro hne
      have hE : (filterExcluded env.exclude l).isEmpty = false := by
        cases hE : (filterExcluded env.exclude l).isEmpty
        · rfl
        · exact absurd (by simpa using hE) hne
      simp [processPageStep, h, hE]

/-- C5 counterexample: with exclude list `["shop"]`, a page whose marker is
followed by the single candidate `http://shop.example/q` (so the extractor
returns one candidate) nevertheless gets the synthetic page-level NG record,
and no candidate is handed to verification — refuting the claim's case (c)
as stated. -/
theorem extractor_crawler_trichotomy_counterexample :
    extract_ad_links envExcl.urljoin (some docFragFree) "http://blog.example/"
      = some ["http://shop.example/q"]
    ∧ processPageStep envExcl "http://blog.example/" "http://blog.example/"
        docFragFree =
        [syntheticRecord "http://blog.example/" "http://blog.example/"] := by
  exact ⟨by decide, by decide⟩

/-- C5 witness: with an empty exclude list the surviving candidate is handed
to verification and no synthetic record appears. -/
theorem extractor_crawler_trichotomy_witness :
    processPageStep envPlain "http://blog.example/" "http://blog.example/"
      docFragFree =
      [record_for_link envPlain "http://blog.example/" "http://blog.example/"
        "http://shop.example/q"] := by
  have h := ((extractor_crawler_trichotomy envPlain "http://blog.example/"
    "http://blog.example/" docFragFree).2
    ["http://shop.example/q"] (by decide)).2 (by decide)
  simpa [filterExcluded] using h

/-- C10: the synthetic page-level NG record is produced exactly when the
POST-filter candidate list is empty — a page whose every extracted candidate
matches an exclude substring gets the same synthesized NG record as a page
with no candidates — while a manual-list item whose link matches an exclude
substring produces no record of any kind. -/
theorem post_filter_synthesis :
    (∀ (env : Env) (blogUrl pageUrl : String) (doc : PageDoc)
      (l : List String),
      extract_ad_links env.urljoin (some doc) pageUrl = some l →
      filterExcluded env.exclude l = [] →
      processPageStep env blogUrl pageUrl doc =
        [syntheticRecord blogUrl pageUrl])
    ∧ (∀ (env : Env) (it : ManualItem),
        env.exclude.any (fun s => pyIn s it.affiliate_link) = true →
        processManual env [it] = []) := by
  constructor
  · intro env blogUrl pageUrl doc l h hf
    simp [processPageStep, h, hf]
  · intro env it hx
    simp [processManual, hx]

/-- C10 witness: the all-candidates-excluded page gets the synthetic record;
the excluded manual item yields nothing. -/
theorem post_filter_synthesis_witness :
    processPageStep envExcl "http://blog.example/" "http://blog.example/"
      docFragFree =
      [syntheticRecord "http://blog.example/" "http://blog.example/"]
    ∧ processManual envExcl [⟨"s", "b", "http://shop.example/q"⟩] = [] := by
  exact ⟨post_filter_synthesis.1 envExcl "http://blog.example/"
      "http://blog.example/" docFragFree ["http://shop.example/q"]
      (by decide) (by decide),
    post_filter_synthesis.2 envExcl ⟨"s", "b", "http://shop.example/q"⟩
      (by decide)⟩

/-- C6 (amended): platform selection is a pure function of the full target
URL string (substring tests for the platform markers), always yielding one of
{Hatena, Livedoor, Generic}; a Generic target is skipped — it contributes no
records — and each target's contribution to the run is independent of the
other targets. -/
theorem platform_selection (url : String) (env : Env) (fuel : Nat)
    (pre post : List String) :
    (classifyPlatform url = Platform.hatena ∨
      classifyPlatform url = Platform.livedoor ∨
      classifyPlatform url = Platform.generic)
    ∧ (classifyPlatform url = Platform.generic →
        processTarget env fuel url = [])
    ∧ processAutoList env fuel (pre ++ url :: post) =
        processAutoList env fuel pre ++ processTarget env fuel url ++
          processAutoList env fuel post := by
  refine ⟨?_, ?_, ?_⟩
  · unfold classifyPlatform
    split_ifs <;> simp
  · intro hg
    unfold classifyPlatform at hg
    split_ifs at hg with h1 h2
    simp [processTarget, h1, h2, ite_self]
  · simp [processAutoList, List.map_append, List.flatten_append]

/-- C6 counterexample: `http://example.com/hatenablog.com` and
`http://example.com/a` share the host `example.com`, which contains none of
the platform substrings, yet the first is dispatched to the Hatena flow while
the second is skipped as Generic — selection is NOT a function of the URL's
host, and a URL whose host matches no platform substring need not be
skipped. -/
theorem platform_selection_counterexample :
    netlocSimple "http://example.com/hatenablog.com" = "example.com"
    ∧ netlocSimple "http://example.com/a" = "example.com"
    ∧ isHatena "example.com" = false
    ∧ isLivedoor "example.com" = false
    ∧ classifyPlatform "http://example.com/a" = Platform.generic
    ∧ classifyPlatform "http://example.com/hatenablog.com" =
        Platform.hatena := by
  exact ⟨by decide, by decide, by decide, by decide, by decide, by decide⟩

/-- C6 witness: a Generic target contributes no records. -/
theorem platform_selection_witness :
    processTarget envPlain 1 "http://example.com/a" = [] :=
  (platform_selection "http://example.com/a" envPlain 1 [] []).2.1 (by decide)

/-- The environment seen by a batch in which the check of `l` raises the
exception `e` while every other link behaves as in `env`. -/
def envOverride (env : Env) (l e : String) : Env :=
  { env with check := fun u => if u = l then Except.error e else env.check u }

/-- C8: the scheduler produces exactly one record per submitted link; each
submitted link's record is in the batch; a task that raises is converted at
the scheduler boundary into an NG record carrying the exception message as
reason (status code absent, final URL the link itself); and one task raising
leaves every sibling's record unchanged. -/
theorem scheduler_fault_isolation (env : Env) (blog page : String)
    (links : List String) (l e : String) :
    (links.map (record_for_link env blog page)).length = links.length
    ∧ (∀ u ∈ links, record_for_link env blog page u ∈
        links.map (record_for_link env blog page))
    ∧ (env.check l = Except.error e →
        record_for_link env blog page l =
          ⟨blog, page, l, "ERROR", none, l, some e⟩)
    ∧ (∀ u, u ≠ l →
        record_for_link (envOverride env l e) blog page u =
          record_for_link env blog page u) := by
  refine ⟨List.length_map _ _, ?_, ?_, ?_⟩
  · intro u hu
    exact List.mem_map_of_mem _ hu
  · intro h
    simp [record_for_link, h]
  · intro u hu
    have hc : (envOverride env l e).check u = env.check u := by
      simp [envOverride, hu]
    unfold record_for_link
    rw [hc]
    rfl

/-- A concrete environment whose every check raises. -/
def envBoom : Env :=
  { fetchHtml := fun _ => none
    urljoin := ujAbs
    netloc := fun _ => ""
    check := fun _ => Except.error "boom"
    exclude := [] }

/-- C8 witness: a raised exception becomes an NG record with the exception
message as reason. -/
theorem scheduler_fault_isolation_witness :
    record_for_link envBoom "b" "p" "http://l" =
      ⟨"b", "p", "http://l", "ERROR", none, "http://l", some "boom"⟩ :=
  (scheduler_fault_isolation envBoom "b" "p" ["http://l"] "http://l"
    "boom").2.2.1 rfl

/-! ## The per-record invariant of the run -/

/-- The invariant every appended record satisfies: the status is `"OK"` or
`"ERROR"`, an OK record carries no reason and an in-range status code, and a
reason is present exactly on `"ERROR"` records. -/
def RecordInvariant (r : ResultRecord) : Prop :=
  (r.status = "OK" ∨ r.status = "ERROR")
  ∧ (r.status = "OK" → r.error_message = none ∧
      ∃ c, r.status_code = some c ∧ SUCCESS_STATUS_LOWER_BOUND ≤ c ∧
        c < SUCCESS_STATUS_UPPER_BOUND)
  ∧ (r.error_message.isSome = true ↔ r.status = "ERROR")

theorem invariant_of_error_record (a b c d msg : String) :
    RecordInvariant ⟨a, b, c, "ERROR", none, d, some msg⟩ := by
  refine ⟨Or.inr rfl, ?_, by simp⟩
  intro hOK
  simp at hOK

theorem invariant_of_classified (a b c : String) (cr : CheckResult)
    (nl : String → String) (o : String) :
    RecordInvariant ⟨a, b, c, (classify_result nl o cr).1, cr.statusCode,
      cr.finalUrl, (classify_result nl o cr).2⟩ := by
  rcases classify_result_cases nl o cr with ⟨h1, h2, h3⟩ | ⟨h1, m, h2⟩
  · exact ⟨Or.inl h1, fun _ => ⟨h2, (is_successful_status_iff _).mp h3⟩,
      by simp [h1, h2]⟩
  · refine ⟨Or.inr h1, ?_, by simp [h1, h2]⟩
    intro hOK
    simp only [h1] at hOK
    simp at hOK

theorem record_for_link_invariant (env : Env) (blog page link : String) :
    RecordInvariant (record_for_link env blog page link) := by
  unfold record_for_link
  cases env.check link with
  | error e => exact invariant_of_error_record blog page link link e
  | ok cr => exact invariant_of_classified blog page link cr env.netloc blog

theorem manual_record_invariant (env : Env) (it : ManualItem) :
    RecordInvariant (manual_record env it) := by
  unfold manual_record
  cases env.check it.affiliate_link with
  | error e =>
    exact invariant_of_error_record it.spreadsheet_link it.blog_article_url
      it.affiliate_link it.affiliate_link e
  | ok cr =>
    exact invariant_of_classified it.spreadsheet_link it.blog_article_url
      it.affiliate_link cr env.netloc it.spreadsheet_link

theorem syntheticRecord_invariant (b p : String) :
    RecordInvariant (syntheticRecord b p) :=
  invariant_of_error_record b p p p syntheticReason

theorem processPageStep_invariant (env : Env) (blog page : String)
    (doc : PageDoc) :
    ∀ r ∈ processPageStep env blog page doc, RecordInvariant r := by
  intro r hr
  cases hext : extract_ad_links env.urljoin (some doc) page with
  | none => simp [processPageStep, hext] at hr
  | some extracted =>
    simp only [processPageStep, hext, List.mem_append] at hr
    rcases hr with h | h
    · split_ifs at h with hE
      · have : r = syntheticRecord blog page := by simpa using h
        rw [this]
        exact syntheticRecord_invariant blog page
      · simp at h
    · rcases List.mem_map.mp h with ⟨l, _, rfl⟩
      exact record_for_link_invariant env blog page l

theorem hatenaCrawl_invariant (env : Env) (blog : String) :
    ∀ (fuel : Nat) (page : String), ∀ r ∈ hatenaCrawl env blog fuel page,
      RecordInvariant r := by
  intro fuel
  induction fuel with
  | zero => intro page r hr; simp [hatenaCrawl] at hr
  | succ n ih =>
    intro page r hr
    cases hf : env.fetchHtml page with
    | none => simp [hatenaCrawl, hf] at hr
    | some doc =>
      simp only [hatenaCrawl, hf, List.mem_append] at hr
      rcases hr with h | h
      · exact processPageStep_invariant env blog page doc r h
      · cases hn : doc.hatenaNextHref with
        | none => simp [hn] at h
        | some href =>
          simp only [hn] at h
          exact ih _ r h

theorem livedoorCrawl_invariant (env : Env) (fuel : Nat) (blog : String) :
    ∀ r ∈ livedoorCrawl env fuel blog, RecordInvariant r := by
  intro r hr
  simp only [livedoorCrawl, List.mem_flatten] at hr
  rcases hr with ⟨chunk, hchunk, hrchunk⟩
  rcases List.mem_map.mp hchunk with ⟨a, _, rfl⟩
  cases hf : env.fetchHtml a with
  | none => simp [hf] at hrchunk
  | some doc =>
    simp only [hf] at hrchunk
    exact processPageStep_invariant env blog a doc r hrchunk

theorem processTarget_invariant (env : Env) (fuel : Nat) (url : String) :
    ∀ r ∈ processTarget env fuel url, RecordInvariant r := by
  intro r hr
  unfold processTarget at hr
  split_ifs at hr with h0 h1 h2
  · simp at hr
  · exact hatenaCrawl_invariant env url fuel url r hr
  · exact livedoorCrawl_invariant env fuel url r hr
  · simp at hr

/-- C9: every record of a run satisfies: the status is `"OK"` or `"ERROR"`;
an OK record carries no error message and a present status code in
[200, 400); and a reason message is present exactly on the failure
(`"ERROR"`) records. -/
theorem run_record_invariant (env : Env) (fuel : Nat) (auto : List String)
    (manual : List ManualItem) (r : ResultRecord)
    (hr : r ∈ runHandler env fuel auto manual) :
    (r.status = "OK" ∨ r.status = "ERROR")
    ∧ (r.status = "OK" → r.error_message = none ∧
        ∃ c, r.status_code = some c ∧ SUCCESS_STATUS_LOWER_BOUND ≤ c ∧
          c < SUCCESS_STATUS_UPPER_BOUND)
    ∧ (r.error_message.isSome = true ↔ r.status = "ERROR") := by
  have hinv : RecordInvariant r := by
    simp only [runHandler, List.mem_append] at hr
    rcases hr with h | h
    · simp only [processAutoList, List.mem_flatten] at h
      rcases h with ⟨chunk, hchunk, hrchunk⟩
      rcases List.mem_map.mp hchunk with ⟨u, _, rfl⟩
      exact processTarget_invariant env fuel u r hrchunk
    · simp only [processManual] at h
      rcases List.mem_map.mp h with ⟨it, _, rfl⟩
      exact manual_record_invariant env it
  exact hinv

/-- C9 witness: the invariant applied to the one record of a concrete run. -/
theorem run_record_invariant_witness :
    (⟨"s", "b", "http://l", "OK", some 200, "http://l", none⟩ :
      ResultRecord).error_message = none := by
  have h := run_record_invariant envPlain 0 [] [⟨"s", "b", "http://l"⟩]
    ⟨"s", "b", "http://l", "OK", some 200, "http://l", none⟩ (by decide)
  exact (h.2.1 rfl).1

/-! ## Report ordering and differencing claims -/

/-- C7 (amended): the emitted report contains one row per record (OK and NG
alike, a permutation of the accumulated list) sorted lexicographically by the
(origin-identifier, page-or-article-url, checked-link) triple; and two runs
producing the same record multiset emit identical row orders PROVIDED no two
distinct records share the key triple — the sort is stable, so records tying
on the key keep their arbitrary completion order. -/
theorem report_order (l l2 : List ResultRecord) :
    (sortRecords l).Perm l
    ∧ (sortRecords l).Sorted recLe
    ∧ (l.Perm l2 → (l.map recKey).Nodup → sortRecords l = sortRecords l2) := by
  refine ⟨List.perm_insertionSort recLe l,
    List.sorted_insertionSort recLe l, ?_⟩
  intro hp hnd
  apply sorted_perm_eq_of_nodup_keys
  · exact (List.perm_insertionSort recLe l).trans
      (hp.trans (List.perm_insertionSort recLe l2).symm)
  · exact List.sorted_insertionSort recLe l
  · exact List.sorted_insertionSort recLe l2
  · have p1 : (sortRecords l2).map recKey |>.Perm (l2.map recKey) :=
      (List.perm_insertionSort recLe l2).map recKey
    have p2 : (l.map recKey).Perm (l2.map recKey) := hp.map recKey
    exact ((p2.trans p1.symm).nodup_iff).mp hnd

/-- C7 counterexample: two records with identical sort keys but different
payloads sort to different row orders out of the two permutations of the same
multiset — sorting by the key triple alone does not determine the row order
of key-tied records. -/
theorem report_order_counterexample :
    ([(⟨"s", "b", "l", "OK", some 200, "u1", none⟩ : ResultRecord),
        ⟨"s", "b", "l", "OK", some 200, "u2", none⟩] : List ResultRecord).Perm
      [⟨"s", "b", "l", "OK", some 200, "u2", none⟩,
        ⟨"s", "b", "l", "OK", some 200, "u1", none⟩]
    ∧ sortRecords [⟨"s", "b", "l", "OK", some 200, "u1", none⟩,
        ⟨"s", "b", "l", "OK", some 200, "u2", none⟩] ≠
      sortRecords [⟨"s", "b", "l", "OK", some 200, "u2", none⟩,
        ⟨"s", "b", "l", "OK", some 200, "u1", none⟩] := by
  constructor
  · exact List.Perm.swap _ _ _
  · have hs1 : ([(⟨"s", "b", "l", "OK", some 200, "u1", none⟩ : ResultRecord),
        ⟨"s", "b", "l", "OK", some 200, "u2", none⟩] :
        List ResultRecord).Sorted recLe := by
      refine List.sorted_cons.mpr ⟨?_, List.sorted_singleton _⟩
      intro b hb
      have hb2 : b = ⟨"s", "b", "l", "OK", some 200, "u2", none⟩ := by
        simpa using hb
      subst hb2
      exact le_of_eq rfl
    have hs2 : ([(⟨"s", "b", "l", "OK", some 200, "u2", none⟩ : ResultRecord),
        ⟨"s", "b", "l", "OK", some 200, "u1", none⟩] :
        List ResultRecord).Sorted recLe := by
      refine List.sorted_cons.mpr ⟨?_, List.sorted_singleton _⟩
      intro b hb
      have hb2 : b = ⟨"s", "b", "l", "OK", some 200, "u1", none⟩ := by
        simpa using hb
      subst hb2
      exact le_of_eq rfl
    rw [sortRecords, sortRecords, hs1.insertionSort_eq, hs2.insertionSort_eq]
    intro h
    simp at h

/-- C7 witness: on key-distinct records, two orders of the same multiset sort
identically. -/
theorem report_order_witness :
    sortRecords [(⟨"a", "b", "l", "OK", some 200, "u", none⟩ : ResultRecord),
        ⟨"c", "b", "l", "OK", some 200, "u", none⟩] =
      sortRecords [⟨"c", "b", "l", "OK", some 200, "u", none⟩,
        ⟨"a", "b", "l", "OK", some 200, "u", none⟩] :=
  (report_order _ _).2.2 (List.Perm.swap _ _ _) (by decide)

/-- C3: for the previous run's NG-key set A (supplied as
`previous_error_details`) and the current run's NG-key set B (the failure
keys of the run's `"ERROR"` records), `new = B \ A` and `fixed = A \ B` as
pure set differences on the (page-or-article-url, checked-link) key, and no
key is in both. -/
theorem diff_correctness (prev : Finset FailureKey)
    (records : List ResultRecord) (k : FailureKey) :
    (k ∈ diffNew prev (currentNgKeys records) ↔
      k ∈ currentNgKeys records ∧ k ∉ prev)
    ∧ (k ∈ diffFixed prev (currentNgKeys records) ↔
      k ∈ prev ∧ k ∉ currentNgKeys records)
    ∧ diffNew prev (currentNgKeys records) ∩
        diffFixed prev (currentNgKeys records) = ∅ := by
  refine ⟨Finset.mem_sdiff, Finset.mem_sdiff, ?_⟩
  ext x
  simp only [diffNew, diffFixed, Finset.mem_inter, Finset.mem_sdiff,
    Finset.not_mem_empty, iff_false]
  tauto

/-- C3 witness (spec Scenario E): previous NG set `{(pageA, linkX)}` against
an empty current run puts that key in `fixed`. -/
theorem diff_correctness_witness :
    (("pageA", "linkX") : FailureKey) ∈
      diffFixed {("pageA", "linkX")} (currentNgKeys []) := by
  have h := (diff_correctness {("pageA", "linkX")} [] ("pageA", "linkX")).2.1
  exact h.mpr ⟨by simp, by simp [currentNgKeys]⟩

end LinkChecker
